import Mathlib

/-!
Verification of the loan-tracker engine: a shallow embedding of the
validation, ledger and interest-computation code (src/js/validation.js,
src/js/app.js, src/js/config.js) together with theorems settling the
specification claims.

Conventions of the embedding:
* monetary values and rates are rationals (an idealisation of JS numbers);
* calendar dates are integer millisecond timestamps, as produced by the
  JS Date object that the source constructs from its stored date strings;
* raw form inputs are Lean strings, with JS parseFloat modelled by an
  executable prefix parser over decimal literals (hex literals and the
  Infinity keyword are not modelled, as amounts never take those forms);
* fallible operations return Except values whose error constructors are
  the codes thrown by the source.
-/

/-- Milliseconds in one day, the divisor in DateUtils.daysBetween. -/
def msPerDay : ℤ := 86400000

/-- Embedding of DateUtils.daysBetween (app.js): the millisecond
difference is divided by one day, rounded up with Math.ceil, and clamped
below by 0 with Math.max. -/
def daysBetween (startDate endDate : ℤ) : ℤ :=
  max 0 ⌈((endDate - startDate : ℤ) : ℚ) / (msPerDay : ℚ)⌉

/-- Embedding of InterestUtils.calculateSimple (app.js): zero for a
non-positive principal or day count, otherwise principal times the daily
rate times the day count. -/
def calculateSimple (principal rate : ℚ) (days : ℤ) : ℚ :=
  if principal ≤ 0 ∨ days ≤ 0 then 0
  else principal * (rate / 365) * (days : ℚ)

/-- Embedding of InterestUtils.calculate (app.js): simple interest over
the day count returned by daysBetween. -/
def calculateInterest (principal : ℚ) (startDate endDate : ℤ) (rate : ℚ) : ℚ :=
  calculateSimple principal rate (daysBetween startDate endDate)

lemma daysBetween_nonneg (s e : ℤ) : 0 ≤ daysBetween s e :=
  le_max_left 0 _

lemma msPerDay_posQ : (0 : ℚ) < (msPerDay : ℚ) := by norm_num [msPerDay]

/-- When the principal is positive, calculateInterest agrees with the
plain accrual product over the clamped day count. -/
lemma calculateInterest_of_pos (b : ℚ) (s e : ℤ) (rate : ℚ) (hb : 0 < b) :
    calculateInterest b s e rate = b * (rate / 365) * ((daysBetween s e : ℤ) : ℚ) := by
  unfold calculateInterest calculateSimple
  rcases le_or_lt (daysBetween s e) 0 with hd | hd
  · have hd0 : daysBetween s e = 0 := le_antisymm hd (daysBetween_nonneg s e)
    rw [hd0]
    simp [not_le.mpr hb]
  · simp [not_le.mpr hb, not_le.mpr hd]

/-- Claim C5: daysBetween is the millisecond difference converted to days
and rounded up to the next whole day, floored at 0: it is never negative,
it is 0 whenever the end does not exceed the start, and it is the least
integer n with 0 ≤ n and end - start ≤ n days. -/
theorem daysBetween_spec (s e : ℤ) :
    0 ≤ daysBetween s e
    ∧ (e ≤ s → daysBetween s e = 0)
    ∧ (∀ n : ℤ, daysBetween s e ≤ n ↔ 0 ≤ n ∧ e - s ≤ n * msPerDay) := by
  refine ⟨daysBetween_nonneg s e, ?_, ?_⟩
  · intro h
    have hx : ((e - s : ℤ) : ℚ) / (msPerDay : ℚ) ≤ 0 := by
      apply div_nonpos_of_nonpos_of_nonneg
      · exact_mod_cast sub_nonpos.mpr h
      · exact le_of_lt msPerDay_posQ
    have hc : ⌈((e - s : ℤ) : ℚ) / (msPerDay : ℚ)⌉ ≤ 0 := by
      simpa using Int.ceil_le.mpr hx
    unfold daysBetween
    omega
  · intro n
    unfold daysBetween
    rw [max_le_iff, Int.ceil_le, div_le_iff₀ msPerDay_posQ]
    constructor
    · rintro ⟨h0, h1⟩
      refine ⟨h0, ?_⟩
      exact_mod_cast h1
    · rintro ⟨h0, h1⟩
      refine ⟨h0, ?_⟩
      exact_mod_cast h1

/-- Instantiation of daysBetween_spec: with the end one day before the
start the count is 0 rather than negative. -/
theorem daysBetween_spec_witness :
    ((-86400000 : ℤ) ≤ 0 ∧ daysBetween 0 (-86400000) = 0)
    ∧ 0 ≤ daysBetween 0 (-86400000) :=
  ⟨⟨by decide, (daysBetween_spec 0 (-86400000)).2.1 (by decide)⟩,
    (daysBetween_spec 0 (-86400000)).1⟩

/-- Error codes thrown as ValidationError codes by validation.js. -/
inductive ErrCode
  | invalidDate
  | required
  | invalidNumber
  | tooLow
  | tooHigh
  | invalidType
  | tooLong
deriving DecidableEq

/-- Warning codes recorded by TransactionValidator (validation.js). -/
inductive WarnCode
  | futureDate
  | duplicate
deriving DecidableEq

/-- CONFIG.MIN_AMOUNT (config.js). -/
def MIN_AMOUNT : ℚ := 1 / 100

/-- CONFIG.MAX_AMOUNT (config.js). -/
def MAX_AMOUNT : ℚ := 99999999999 / 100

/-- CONFIG.MAX_NOTE_LENGTH (config.js). -/
def MAX_NOTE_LENGTH : ℕ := 500

/-- Embedding of the JS String.prototype.trim used by validation.js:
removes leading and trailing whitespace. -/
def jsTrim (s : String) : String :=
  String.mk (((s.data.dropWhile Char.isWhitespace).reverse.dropWhile
    Char.isWhitespace).reverse)

/-- Embedding of ValidationUtils.isEmpty (validation.js), restricted to
its string argument case: true when the trimmed string is empty. -/
def isEmptyStr (s : String) : Bool := jsTrim s = ""

/-- HTML escaping of one character as performed by assigning textContent
to a div and reading innerHTML back (ValidationUtils.sanitizeHtml). -/
def escChar (c : Char) : List Char :=
  if c = '&' then ['&', 'a', 'm', 'p', ';']
  else if c = '<' then ['&', 'l', 't', ';']
  else if c = '>' then ['&', 'g', 't', ';']
  else [c]

/-- Embedding of ValidationUtils.sanitizeHtml (validation.js): escapes
markup characters of the string. -/
def sanitizeHtml (s : String) : String :=
  String.mk (s.data.map escChar).flatten

/-- Numeric value of a digit string, most significant digit first. -/
def digitsToNat (l : List Char) : ℕ :=
  l.foldl (fun a c => 10 * a + (c.toNat - 48)) 0

/-- Embedding of the JS parseFloat applied by validation.js to amount
strings: skip leading whitespace, read an optional sign, integer digits,
an optional fraction and an optional exponent, ignoring any trailing
garbage; none models NaN (no digits found). Hexadecimal forms and the
Infinity keyword do not occur as amounts and are not modelled. -/
def parseFloatQ (s : String) : Option ℚ :=
  let l0 := s.data.dropWhile Char.isWhitespace
  let signAndRest : ℚ × List Char :=
    match l0 with
    | '-' :: rest => (-1, rest)
    | '+' :: rest => (1, rest)
    | _ => (1, l0)
  let sign := signAndRest.1
  let l1 := signAndRest.2
  let ip := l1.takeWhile Char.isDigit
  let l2 := l1.dropWhile Char.isDigit
  let fpAndRest : List Char × List Char :=
    match l2 with
    | '.' :: rest => (rest.takeWhile Char.isDigit, rest.dropWhile Char.isDigit)
    | _ => ([], l2)
  let fp := fpAndRest.1
  let l3 := fpAndRest.2
  if ip = [] ∧ fp = [] then none
  else
    let mant : ℚ :=
      (digitsToNat ip : ℚ) + (digitsToNat fp : ℚ) / ((10 ^ fp.length : ℕ) : ℚ)
    let expPart : ℤ :=
      match l3 with
      | c :: rest =>
        if c = 'e' ∨ c = 'E' then
          let esignAndRest : ℤ × List Char :=
            match rest with
            | '-' :: r2 => (-1, r2)
            | '+' :: r2 => (1, r2)
            | _ => (1, rest)
          let ed := esignAndRest.2.takeWhile Char.isDigit
          if ed = [] then 0 else esignAndRest.1 * (digitsToNat ed : ℤ)
        else 0
      | [] => 0
    let scaled : ℚ :=
      if expPart < 0 then mant / ((10 ^ expPart.natAbs : ℕ) : ℚ)
      else mant * ((10 ^ expPart.natAbs : ℕ) : ℚ)
    some (sign * scaled)

/-- Embedding of the JS Math.round used by parseAmount: floor of the
argument plus one half, which sends ties upward (away from zero for the
positive amounts reaching it). -/
def jsRound (q : ℚ) : ℤ := ⌊q + 1 / 2⌋

/-- Embedding of ValidationUtils.parseAmount (validation.js): empty or
blank input is REQUIRED, unparseable input is INVALID_NUMBER, then the
raw parsed value is checked against MIN_AMOUNT and MAX_AMOUNT, and only
afterwards is the accepted value rounded to two decimal places. -/
def parseAmount (s : String) : Except ErrCode ℚ :=
  if isEmptyStr s then .error .required
  else
    match parseFloatQ s with
    | none => .error .invalidNumber
    | some a =>
      if a < MIN_AMOUNT then .error .tooLow
      else if MAX_AMOUNT < a then .error .tooHigh
      else .ok ((jsRound (a * 100) : ℚ) / 100)

/-- Embedding of ValidationUtils.validateNotes (validation.js): empty or
blank notes become the empty string, otherwise the trimmed string is
sanitized and its sanitized length checked against MAX_NOTE_LENGTH. -/
def validateNotes (s : String) : Except ErrCode String :=
  if isEmptyStr s then .ok ""
  else
    let sanitized := sanitizeHtml (jsTrim s)
    if MAX_NOTE_LENGTH < sanitized.length then .error .tooLong
    else .ok sanitized

/-- Embedding of ValidationUtils.validateTransactionType (validation.js):
the raw string must be exactly one of the two enum labels. -/
def validateTransactionType (ty : String) : Except ErrCode String :=
  if ty = "Loan Out" ∨ ty = "Payment" then .ok ty else .error .invalidType

lemma dropWhile_ws_of_blank (s : String) (h : jsTrim s = "") :
    s.data.dropWhile Char.isWhitespace = [] := by
  have hdata : ((s.data.dropWhile Char.isWhitespace).reverse.dropWhile
      Char.isWhitespace).reverse = ([] : List Char) := congrArg String.data h
  rw [List.reverse_eq_nil_iff, List.dropWhile_eq_nil_iff] at hdata
  rcases hd : s.data.dropWhile Char.isWhitespace with _ | ⟨c, rest⟩
  · rfl
  · exfalso
    have hnc := List.head?_dropWhile_not Char.isWhitespace s.data
    rw [hd] at hnc
    have hc : Char.isWhitespace c := by
      apply hdata
      rw [hd]
      exact List.mem_reverse.mpr (List.mem_cons_self c rest)
    simp at hnc
    simp_all

/-- Blank input parses to NaN: a whitespace-only string has no digits. -/
lemma parseFloatQ_of_blank (s : String) (h : jsTrim s = "") :
    parseFloatQ s = none := by
  unfold parseFloatQ
  rw [dropWhile_ws_of_blank s h]
  with_unfolding_all rfl

lemma isEmptyStr_iff (s : String) : isEmptyStr s = true ↔ jsTrim s = "" := by
  simp [isEmptyStr]

/-- Claim C6: parseAmount fails REQUIRED on empty or blank input, fails
INVALID_NUMBER on input that does not parse to a number, fails TOO_LOW on
any parsed value below MIN_AMOUNT (in particular the string 0.00), and
fails TOO_HIGH on any parsed value above MAX_AMOUNT (in particular the
string 1000000000). -/
theorem parseAmount_error_spec :
    parseAmount "" = .error .required
    ∧ parseAmount "0.00" = .error .tooLow
    ∧ parseAmount "1000000000" = .error .tooHigh
    ∧ (∀ s, jsTrim s = "" → parseAmount s = .error .required)
    ∧ (∀ s, jsTrim s ≠ "" → parseFloatQ s = none →
        parseAmount s = .error .invalidNumber)
    ∧ (∀ s a, parseFloatQ s = some a → a < MIN_AMOUNT →
        parseAmount s = .error .tooLow)
    ∧ (∀ s a, parseFloatQ s = some a → MAX_AMOUNT < a →
        parseAmount s = .error .tooHigh) := by
  refine ⟨by with_unfolding_all rfl, by with_unfolding_all rfl,
    by with_unfolding_all rfl, ?_, ?_, ?_, ?_⟩
  · intro s h
    unfold parseAmount
    rw [if_pos ((isEmptyStr_iff s).mpr h)]
  · intro s h hp
    unfold parseAmount
    rw [if_neg (by simpa [isEmptyStr_iff] using h), hp]
  · intro s a hp hlow
    have hblank : isEmptyStr s = false := by
      rcases hb : isEmptyStr s with _ | _
      · rfl
      · rw [parseFloatQ_of_blank s ((isEmptyStr_iff s).mp hb)] at hp
        exact absurd hp (by simp)
    unfold parseAmount
    rw [hblank, hp]
    simp [hlow]
  · intro s a hp hhigh
    have hblank : isEmptyStr s = false := by
      rcases hb : isEmptyStr s with _ | _
      · rfl
      · rw [parseFloatQ_of_blank s ((isEmptyStr_iff s).mp hb)] at hp
        exact absurd hp (by simp)
    unfold parseAmount
    rw [hblank, hp]
    have : ¬ a < MIN_AMOUNT := by
      rw [not_lt]
      calc MIN_AMOUNT ≤ MAX_AMOUNT := by norm_num [MIN_AMOUNT, MAX_AMOUNT]
        _ ≤ a := le_of_lt hhigh
    simp [this, hhigh]

/-- Instantiation of parseAmount_error_spec: the blank string of one
space fails REQUIRED, and the string -3 (parsing to a value below one
cent) fails TOO_LOW. -/
theorem parseAmount_error_spec_witness :
    (jsTrim " " = "" ∧ parseAmount " " = .error .required)
    ∧ (parseFloatQ "-3" = some (-3) ∧ (-3 : ℚ) < MIN_AMOUNT
        ∧ parseAmount "-3" = .error .tooLow) :=
  ⟨⟨by with_unfolding_all rfl,
      (parseAmount_error_spec).2.2.2.1 " " (by with_unfolding_all rfl)⟩,
    ⟨by with_unfolding_all rfl, by with_unfolding_all decide,
      (parseAmount_error_spec).2.2.2.2.2.1 "-3" (-3)
        (by with_unfolding_all rfl) (by with_unfolding_all decide)⟩⟩

/-- Counterexample to claim C2 as stated: the string 0.005 parses to a
value whose nearest-cent rounding 0.01 lies within the accepted bounds,
yet parseAmount rejects it with TOO_LOW, because the bounds check is
applied to the raw value before any rounding. -/
theorem parseAmount_round_counterexample :
    parseFloatQ "0.005" = some (1 / 200)
    ∧ MIN_AMOUNT ≤ (jsRound ((1 / 200) * 100) : ℚ) / 100
    ∧ (jsRound ((1 / 200) * 100) : ℚ) / 100 ≤ MAX_AMOUNT
    ∧ parseAmount "0.005" = .error .tooLow :=
  ⟨by with_unfolding_all rfl, by with_unfolding_all decide,
    by with_unfolding_all decide, by with_unfolding_all rfl⟩

/-- Claim C2 (amended): for every amount string parsing to a raw value
within [MIN_AMOUNT, MAX_AMOUNT], parseAmount succeeds and returns the
value rounded to the nearest cent with ties rounded upward, the result
again lying within the bounds; the bounds check is applied to the raw
value before rounding, so a raw value below MIN_AMOUNT is rejected even
when its nearest-cent rounding lies within the bounds. -/
theorem parseAmount_accepts_spec :
    (∀ s a, parseFloatQ s = some a → MIN_AMOUNT ≤ a → a ≤ MAX_AMOUNT →
        parseAmount s = .ok ((jsRound (a * 100) : ℚ) / 100)
        ∧ |((jsRound (a * 100) : ℚ) / 100) - a| ≤ 1 / 200
        ∧ MIN_AMOUNT ≤ (jsRound (a * 100) : ℚ) / 100
        ∧ (jsRound (a * 100) : ℚ) / 100 ≤ MAX_AMOUNT)
    ∧ (∀ n : ℤ, jsRound ((n : ℚ) + 1 / 2) = n + 1)
    ∧ (∀ s a, parseFloatQ s = some a → a < MIN_AMOUNT →
        parseAmount s ≠ .ok ((jsRound (a * 100) : ℚ) / 100)) := by
  refine ⟨?_, ?_, ?_⟩
  · intro s a hp hmin hmax
    have hblank : isEmptyStr s = false := by
      rcases hb : isEmptyStr s with _ | _
      · rfl
      · rw [parseFloatQ_of_blank s ((isEmptyStr_iff s).mp hb)] at hp
        exact absurd hp (by simp)
    have hfl : ((jsRound (a * 100) : ℤ) : ℚ) ≤ a * 100 + 1 / 2 :=
      Int.floor_le (a * 100 + 1 / 2)
    have hfg : a * 100 + 1 / 2 - 1 < ((jsRound (a * 100) : ℤ) : ℚ) :=
      Int.sub_one_lt_floor (a * 100 + 1 / 2)
    refine ⟨?_, ?_, ?_, ?_⟩
    · unfold parseAmount
      rw [hblank, hp]
      simp [not_lt.mpr hmin, not_lt.mpr hmax]
    · rw [abs_le]
      constructor <;> linarith
    · have h1 : (1 : ℤ) ≤ jsRound (a * 100) := by
        rw [jsRound, Int.le_floor]
        push_cast
        have : (1 : ℚ) ≤ a * 100 := by
          rw [MIN_AMOUNT] at hmin
          linarith
        linarith
      have h1q : (1 : ℚ) ≤ ((jsRound (a * 100) : ℤ) : ℚ) := by exact_mod_cast h1
      rw [MIN_AMOUNT]
      linarith
    · have h2 : jsRound (a * 100) ≤ 99999999999 := by
        have ha : a * 100 ≤ 99999999999 := by
          rw [MAX_AMOUNT] at hmax
          linarith
        have hq : ((jsRound (a * 100) : ℤ) : ℚ) < ((100000000000 : ℤ) : ℚ) := by
          push_cast
          linarith
        have := (@Int.cast_lt ℚ _ _ _).mp hq
        omega
      have h2q : ((jsRound (a * 100) : ℤ) : ℚ) ≤ 99999999999 := by exact_mod_cast h2
      rw [MAX_AMOUNT]
      linarith
  · intro n
    have : (n : ℚ) + 1 / 2 + 1 / 2 = ((n + 1 : ℤ) : ℚ) := by push_cast; ring
    rw [jsRound, this, Int.floor_intCast]
  · intro s a hp hlow
    rw [(parseAmount_error_spec).2.2.2.2.2.1 s a hp hlow]
    simp

/-- Instantiation of parseAmount_accepts_spec: the string 7.006 parses to
7.006, lies within bounds and is accepted as 7.01, within one half cent
of the raw value. -/
theorem parseAmount_accepts_spec_witness :
    (parseFloatQ "7.006" = some (3503 / 500)
      ∧ MIN_AMOUNT ≤ (3503 : ℚ) / 500 ∧ (3503 : ℚ) / 500 ≤ MAX_AMOUNT)
    ∧ parseAmount "7.006" = .ok ((jsRound ((3503 / 500) * 100) : ℚ) / 100)
    ∧ parseAmount "7.006" = .ok (701 / 100) :=
  ⟨⟨by with_unfolding_all rfl, by with_unfolding_all decide,
      by with_unfolding_all decide⟩,
    ((parseAmount_accepts_spec).1 "7.006" (3503 / 500)
      (by with_unfolding_all rfl) (by with_unfolding_all decide)
      (by with_unfolding_all decide)).1,
    by with_unfolding_all rfl⟩

/-- Claim C10: validateNotes depends on its input only through the
trimmed string, so surrounding whitespace is removed before sanitization
and the length check, and any whitespace-only notes value is accepted as
the empty string rather than rejected. -/
theorem validateNotes_trim_spec :
    (∀ s, jsTrim s = "" → validateNotes s = .ok "")
    ∧ (∀ s t, jsTrim s = jsTrim t → validateNotes s = validateNotes t) := by
  constructor
  · intro s h
    unfold validateNotes
    rw [if_pos ((isEmptyStr_iff s).mpr h)]
  · intro s t h
    unfold validateNotes
    rw [show isEmptyStr s = isEmptyStr t by simp [isEmptyStr, h], h]

/-- Instantiation of validateNotes_trim_spec: a whitespace-only note is
accepted as empty, and surrounding whitespace does not change the result
of validation. -/
theorem validateNotes_trim_spec_witness :
    (jsTrim "  " = "" ∧ validateNotes "  " = .ok "")
    ∧ (jsTrim " hi " = jsTrim "hi"
        ∧ validateNotes " hi " = validateNotes "hi") :=
  ⟨⟨by with_unfolding_all rfl,
      (validateNotes_trim_spec).1 "  " (by with_unfolding_all rfl)⟩,
    ⟨by with_unfolding_all rfl,
      (validateNotes_trim_spec).2 " hi " "hi" (by with_unfolding_all rfl)⟩⟩

/-- Form fields validated by TransactionValidator (validation.js), plus
the pseudo-field under which duplicate warnings are recorded. -/
inductive FieldName
  | date
  | amount
  | type
  | notes
  | duplicate
deriving DecidableEq

/-- Raw field strings of a candidate transaction as submitted by the
form (FormValidator.validateForm, validation.js). -/
structure Candidate where
  date : String
  type : String
  amount : String
  notes : String
deriving DecidableEq

/-- View of an existing ledger transaction as used by duplicate
detection (validation.js): stored date and type strings and the numeric
amount. -/
structure EntryV where
  date : String
  type : String
  amount : ℚ
deriving DecidableEq

/-- Embedding of ValidationUtils.parseDate (validation.js): an empty
(falsy) string yields null without error, an unparseable string throws
INVALID_DATE, otherwise the parsed date is returned. The JS Date
constructor is abstracted as the function jsDate, none modelling an
invalid date. -/
def parseDate (jsDate : String → Option ℤ) (s : String) :
    Except ErrCode (Option ℤ) :=
  if s = "" then .ok none
  else
    match jsDate s with
    | none => .error .invalidDate
    | some d => .ok (some d)

/-- Error entries contributed by one field validator: one entry on
failure, none on success (TransactionValidator.addError). -/
def fieldErrs {α : Type} (f : FieldName) : Except ErrCode α → List (FieldName × ErrCode)
  | .error e => [(f, e)]
  | .ok _ => []

/-- Future-date warning of TransactionValidator.validateTransaction:
raised only when the date parsed to a value after the end of today
(ValidationUtils.isFutureDate); a null date compares false. -/
def dateWarns (endOfToday : ℤ) :
    Except ErrCode (Option ℤ) → List (FieldName × WarnCode)
  | .ok (some d) => if endOfToday < d then [(FieldName.date, WarnCode.futureDate)] else []
  | _ => []

/-- Embedding of the near-match predicate inside
TransactionValidator.checkForDuplicates (validation.js): identical date
string, identical type string, amounts within one cent; a NaN candidate
amount compares false. -/
def dupMatch (c : Candidate) (e : EntryV) : Bool :=
  e.date == c.date && e.type == c.type &&
    (match parseFloatQ c.amount with
     | none => false
     | some a => decide (|e.amount - a| < 1 / 100))

/-- Embedding of TransactionValidator.checkForDuplicates (validation.js):
the first near-match in the existing ledger, if any. -/
def checkForDuplicates (c : Candidate) (l : List EntryV) : Option EntryV :=
  l.find? (dupMatch c)

/-- Result shape of TransactionValidator.validateTransaction: the
collected per-field errors and warnings. -/
structure VResult where
  errors : List (FieldName × ErrCode)
  warnings : List (FieldName × WarnCode)
deriving DecidableEq

/-- Embedding of the boolean returned by validateTransaction:
no errors were collected (negation of hasErrors). -/
def VResult.valid (r : VResult) : Bool := r.errors.isEmpty

/-- Embedding of TransactionValidator.validateTransaction
(validation.js): the four field validators run in order inside separate
try blocks, each failure adding one error entry for its own field, then
the duplicate check adds at most a warning. -/
def validateTransaction (jsDate : String → Option ℤ) (endOfToday : ℤ)
    (c : Candidate) (l : List EntryV) : VResult :=
  let dateRes := parseDate jsDate c.date
  { errors :=
      fieldErrs FieldName.date dateRes
        ++ fieldErrs FieldName.amount (parseAmount c.amount)
        ++ fieldErrs FieldName.type (validateTransactionType c.type)
        ++ fieldErrs FieldName.notes (validateNotes c.notes),
    warnings :=
      dateWarns endOfToday dateRes
        ++ (match checkForDuplicates c l with
            | some _ => [(FieldName.duplicate, WarnCode.duplicate)]
            | none => []) }

lemma mem_fieldErrs {α : Type} (f g : FieldName) (e : ErrCode)
    (r : Except ErrCode α) :
    (g, e) ∈ fieldErrs f r ↔ g = f ∧ r = .error e := by
  cases r with
  | error a =>
    simp only [fieldErrs, List.mem_singleton, Prod.mk.injEq, Except.error.injEq]
    constructor
    · rintro ⟨h1, h2⟩
      exact ⟨h1, h2.symm⟩
    · rintro ⟨h1, h2⟩
      exact ⟨h1, h2.symm⟩
  | ok a => simp [fieldErrs]

/-- Claim C7: validateTransaction checks all four fields independently;
for each field the result contains an error entry exactly when that
field's own validator fails, whatever the other fields or the existing
ledger contain, so no failure suppresses the reporting of another. -/
theorem validateTransaction_independent (jsDate : String → Option ℤ)
    (endOfToday : ℤ) (c : Candidate) (l : List EntryV) (e : ErrCode) :
    ((FieldName.date, e) ∈ (validateTransaction jsDate endOfToday c l).errors
        ↔ parseDate jsDate c.date = .error e)
    ∧ ((FieldName.amount, e) ∈ (validateTransaction jsDate endOfToday c l).errors
        ↔ parseAmount c.amount = .error e)
    ∧ ((FieldName.type, e) ∈ (validateTransaction jsDate endOfToday c l).errors
        ↔ validateTransactionType c.type = .error e)
    ∧ ((FieldName.notes, e) ∈ (validateTransaction jsDate endOfToday c l).errors
        ↔ validateNotes c.notes = .error e) := by
  refine ⟨?_, ?_, ?_, ?_⟩ <;>
    simp [validateTransaction, List.mem_append, mem_fieldErrs]

/-- Specification-level reading of the duplicate predicate of claim C8. -/
def isDuplicateOf (c : Candidate) (e : EntryV) : Prop :=
  e.date = c.date ∧ e.type = c.type ∧
    ∃ a, parseFloatQ c.amount = some a ∧ |e.amount - a| < 1 / 100

lemma dupMatch_iff (c : Candidate) (e : EntryV) :
    dupMatch c e = true ↔ isDuplicateOf c e := by
  unfold dupMatch isDuplicateOf
  cases hp : parseFloatQ c.amount with
  | none => simp [hp]
  | some a => simp [hp, and_assoc]

/-- Claim C8: checkForDuplicates returns the first existing transaction
with identical date string, identical type and amount within one cent of
the candidate's, none when no such transaction exists; and a duplicate
never affects validity, which is the same with any ledger as with the
empty one. -/
theorem checkForDuplicates_spec (jsDate : String → Option ℤ)
    (endOfToday : ℤ) (c : Candidate) (l : List EntryV) (e : EntryV) :
    (checkForDuplicates c l = some e ↔
      isDuplicateOf c e
        ∧ ∃ l1 l2, l = l1 ++ e :: l2 ∧ ∀ x ∈ l1, ¬ isDuplicateOf c x)
    ∧ (checkForDuplicates c l = none ↔ ∀ x ∈ l, ¬ isDuplicateOf c x)
    ∧ ((FieldName.duplicate, WarnCode.duplicate)
          ∈ (validateTransaction jsDate endOfToday c l).warnings
        ↔ checkForDuplicates c l ≠ none)
    ∧ (validateTransaction jsDate endOfToday c l).valid
        = (validateTransaction jsDate endOfToday c []).valid := by
  refine ⟨?_, ?_, ?_, rfl⟩
  · rw [checkForDuplicates, List.find?_eq_some]
    constructor
    · rintro ⟨hpe, l1, l2, happ, hfirst⟩
      subst happ
      refine ⟨(dupMatch_iff c e).mp hpe, l1, l2, rfl, ?_⟩
      intro x hx hdx
      have hb := hfirst x hx
      rw [← dupMatch_iff c x] at hdx
      rw [hdx] at hb
      simp at hb
    · rintro ⟨hdup, l1, l2, happ, hfirst⟩
      subst happ
      refine ⟨(dupMatch_iff c e).mpr hdup, l1, l2, rfl, ?_⟩
      intro x hx
      rcases hbv : dupMatch c x with _ | _
      · simp
      · exact absurd ((dupMatch_iff c x).mp hbv) (hfirst x hx)
  · rw [checkForDuplicates, List.find?_eq_none]
    constructor
    · intro h x hx hd
      exact h x hx ((dupMatch_iff c x).mpr hd)
    · intro h x hx hc
      exact h x hx ((dupMatch_iff c x).mp hc)
  · have hdw : (FieldName.duplicate, WarnCode.duplicate)
        ∉ dateWarns endOfToday (parseDate jsDate c.date) := by
      rcases parseDate jsDate c.date with e1 | o1
      · simp [dateWarns]
      · rcases o1 with _ | d
        · simp [dateWarns]
        · by_cases hlt : endOfToday < d <;> simp [dateWarns, hlt]
    cases hd : checkForDuplicates c l <;>
      simp [validateTransaction, hd, hdw]

/-- The two transaction type labels (config.js TRANSACTION_TYPES). -/
inductive TxType
  | loanOut
  | payment
deriving DecidableEq

/-- An accepted ledger transaction (app.js handleAddTransaction): id,
parsed calendar date in milliseconds, type, numeric amount and notes. -/
structure Tx where
  id : ℕ
  date : ℤ
  type : TxType
  amount : ℚ
  notes : String
deriving DecidableEq

/-- Application of one transaction to the running balance (app.js
updateTransactionTable): loans add their amount, payments subtract it. -/
def applyTx (b : ℚ) (t : Tx) : ℚ :=
  if t.type = TxType.loanOut then b + t.amount else b - t.amount

/-- One row of the computed timeline (app.js updateTransactionTable). -/
structure TimelineRow where
  tx : Tx
  daysSincePrevious : ℤ
  interestAccrued : ℚ
  runningBalanceAfter : ℚ
deriving DecidableEq

/-- Loop body of updateTransactionTable (app.js) for a transaction with
a previous date p: days since the previous entry, interest accrued only
on a positive entering balance, interest folded into the balance before
the amount is applied. -/
def stepRow (rate b : ℚ) (p : ℤ) (t : Tx) : TimelineRow :=
  { tx := t,
    daysSincePrevious := daysBetween p t.date,
    interestAccrued := if 0 < b then calculateInterest b p t.date rate else 0,
    runningBalanceAfter :=
      applyTx (b + (if 0 < b then calculateInterest b p t.date rate else 0)) t }

/-- The row-generating walk of updateTransactionTable (app.js), with
explicit running balance and optional previous date. -/
def timelineRows (rate : ℚ) : List Tx → ℚ → Option ℤ → List TimelineRow
  | [], _, _ => []
  | t :: rest, b, none =>
    { tx := t, daysSincePrevious := 0, interestAccrued := 0,
      runningBalanceAfter := applyTx b t }
      :: timelineRows rate rest (applyTx b t) (some t.date)
  | t :: rest, b, some p =>
    stepRow rate b p t
      :: timelineRows rate rest (stepRow rate b p t).runningBalanceAfter (some t.date)

/-- Embedding of the timeline computed by updateTransactionTable
(app.js): the walk starts with balance 0 and no previous date. -/
def computeTimeline (rate : ℚ) (txs : List Tx) : List TimelineRow :=
  timelineRows rate txs 0 none

lemma timelineRows_length (rate : ℚ) (txs : List Tx) :
    ∀ (b : ℚ) (p : Option ℤ), (timelineRows rate txs b p).length = txs.length := by
  induction txs with
  | nil => intro b p; rfl
  | cons t rest ih =>
    intro b p
    cases p <;> simp [timelineRows, ih]

lemma timelineRows_succ (rate : ℚ) :
    ∀ (txs : List Tx) (b : ℚ) (p : Option ℤ) (i : ℕ) (t t2 : Tx)
      (r r2 : TimelineRow),
      txs[i]? = some t → txs[i + 1]? = some t2 →
      (timelineRows rate txs b p)[i]? = some r →
      (timelineRows rate txs b p)[i + 1]? = some r2 →
      r2 = stepRow rate r.runningBalanceAfter t.date t2 := by
  intro txs
  induction txs with
  | nil =>
    intro b p i t t2 r r2 h1
    simp at h1
  | cons t0 rest ih =>
    intro b p i t t2 r r2 h1 h2 h3 h4
    cases i with
    | zero =>
      rcases rest with _ | ⟨t1, rest2⟩
      · simp at h2
      · simp only [List.getElem?_cons_zero, List.getElem?_cons_succ,
          Option.some.injEq] at h1 h2
        subst h1
        subst h2
        cases p with
        | none =>
          simp only [timelineRows, List.getElem?_cons_zero,
            List.getElem?_cons_succ, Option.some.injEq] at h3 h4
          subst h3
          subst h4
          rfl
        | some pd =>
          simp only [timelineRows, List.getElem?_cons_zero,
            List.getElem?_cons_succ, Option.some.injEq] at h3 h4
          subst h3
          subst h4
          rfl
    | succ j =>
      simp only [List.getElem?_cons_succ] at h1 h2
      cases p with
      | none =>
        simp only [timelineRows, List.getElem?_cons_succ] at h3 h4
        exact ih (applyTx b t0) (some t0.date) j t t2 r r2 h1 h2 h3 h4
      | some pd =>
        simp only [timelineRows, List.getElem?_cons_succ] at h3 h4
        exact ih (stepRow rate b pd t0).runningBalanceAfter (some t0.date)
          j t t2 r r2 h1 h2 h3 h4

/-- Claim C1: walking the sorted ledger from balance 0, the first row
carries no interest and ends at the signed amount of its transaction,
and every later row accrues interest exactly when the entering balance
is strictly positive, the accrued amount being balance times the daily
rate times daysBetween of the two dates, added to the balance before the
transaction amount is applied. -/
theorem computeTimeline_accrual (rate : ℚ) (txs : List Tx) :
    (computeTimeline rate txs).length = txs.length
    ∧ (∀ t, txs[0]? = some t →
        (computeTimeline rate txs)[0]? = some
          { tx := t, daysSincePrevious := 0, interestAccrued := 0,
            runningBalanceAfter :=
              if t.type = TxType.loanOut then t.amount else -t.amount })
    ∧ (∀ i t t2 r r2, txs[i]? = some t → txs[i + 1]? = some t2 →
        (computeTimeline rate txs)[i]? = some r →
        (computeTimeline rate txs)[i + 1]? = some r2 →
        r2.tx = t2
        ∧ r2.daysSincePrevious = daysBetween t.date t2.date
        ∧ r2.interestAccrued =
            (if 0 < r.runningBalanceAfter
             then r.runningBalanceAfter * (rate / 365)
                    * ((daysBetween t.date t2.date : ℤ) : ℚ)
             else 0)
        ∧ r2.runningBalanceAfter =
            (if t2.type = TxType.loanOut
             then r.runningBalanceAfter + r2.interestAccrued + t2.amount
             else r.runningBalanceAfter + r2.interestAccrued - t2.amount)) := by
  refine ⟨timelineRows_length rate txs 0 none, ?_, ?_⟩
  · intro t h
    rcases txs with _ | ⟨t0, rest⟩
    · simp at h
    · simp only [List.getElem?_cons_zero, Option.some.injEq] at h
      subst h
      simp only [computeTimeline, timelineRows, List.getElem?_cons_zero,
        Option.some.injEq]
      unfold applyTx
      simp [zero_add, zero_sub]
  · intro i t t2 r r2 h1 h2 h3 h4
    have hstep := timelineRows_succ rate txs 0 none i t t2 r r2 h1 h2 h3 h4
    subst hstep
    refine ⟨rfl, rfl, ?_, ?_⟩
    · show (if 0 < r.runningBalanceAfter
          then calculateInterest r.runningBalanceAfter t.date t2.date rate
          else 0) = _
      by_cases hb : 0 < r.runningBalanceAfter
      · rw [if_pos hb, if_pos hb,
          calculateInterest_of_pos r.runningBalanceAfter t.date t2.date rate hb]
      · rw [if_neg hb, if_neg hb]
    · show applyTx _ t2 = _
      unfold applyTx
      cases htype : t2.type <;> simp [htype, stepRow]

/-- Example ledger for the C1 witness: a 1000 loan, then a payment of
100 made 31 days later, at the default 8.25 percent annual rate. -/
def exRate : ℚ := 825 / 10000

def exTx0 : Tx :=
  { id := 1, date := 0, type := TxType.loanOut, amount := 1000, notes := "" }

def exTx1 : Tx :=
  { id := 2, date := 2678400000, type := TxType.payment, amount := 100, notes := "" }

def exLedger : List Tx := [exTx0, exTx1]

def exRow0 : TimelineRow :=
  { tx := exTx0, daysSincePrevious := 0, interestAccrued := 0,
    runningBalanceAfter := 1000 }

def exRow1 : TimelineRow :=
  { tx := exTx1, daysSincePrevious := 31, interestAccrued := 1023 / 146,
    runningBalanceAfter := 132423 / 146 }

/-- Instantiation of computeTimeline_accrual on the two-transaction
example ledger: the second row accrues 31 days of interest on the
positive balance of 1000 before applying the payment. -/
theorem computeTimeline_accrual_witness :
    (exLedger[0]? = some exTx0 ∧ exLedger[1]? = some exTx1
      ∧ (computeTimeline exRate exLedger)[0]? = some exRow0
      ∧ (computeTimeline exRate exLedger)[1]? = some exRow1)
    ∧ (exRow1.tx = exTx1
      ∧ exRow1.daysSincePrevious = daysBetween exTx0.date exTx1.date
      ∧ exRow1.interestAccrued =
          (if 0 < exRow0.runningBalanceAfter
           then exRow0.runningBalanceAfter * (exRate / 365)
                  * ((daysBetween exTx0.date exTx1.date : ℤ) : ℚ)
           else 0)
      ∧ exRow1.runningBalanceAfter =
          (if exTx1.type = TxType.loanOut
           then exRow0.runningBalanceAfter + exRow1.interestAccrued + exTx1.amount
           else exRow0.runningBalanceAfter + exRow1.interestAccrued - exTx1.amount)) :=
  ⟨⟨rfl, rfl, by with_unfolding_all rfl, by with_unfolding_all rfl⟩,
    (computeTimeline_accrual exRate exLedger).2.2 0 exTx0 exTx1 exRow0 exRow1
      rfl rfl (by with_unfolding_all rfl) (by with_unfolding_all rfl)⟩

/-- Balance-and-previous-date step shared by the loops of
updateTransactionTable and generateCSV (app.js): accrue interest on a
positive balance when a previous date exists, then apply the amount and
record the transaction date. -/
def stepBalance (rate : ℚ) (s : ℚ × Option ℤ) (t : Tx) : ℚ × Option ℤ :=
  (applyTx
    (match s.2 with
     | some p => if 0 < s.1 then s.1 + calculateInterest s.1 p t.date rate else s.1
     | none => s.1) t,
   some t.date)

/-- Final balance and previous date after the transaction loops of
updateTransactionTable and generateCSV (app.js). -/
def finalState (rate : ℚ) (txs : List Tx) : ℚ × Option ℤ :=
  txs.foldl (stepBalance rate) (0, none)

/-- The synthetic trailing row of the table and of the export
(app.js createCurrentInterestRow and the generateCSV trailing line). -/
structure TrailingRow where
  date : ℤ
  days : ℤ
  interest : ℚ
  balance : ℚ
deriving DecidableEq

/-- Embedding of the current-interest row decision of
updateTransactionTable (app.js): appended when the final balance is
positive, a previous date exists, and the day count to today is
positive. -/
def currentInterestRow (rate : ℚ) (today : ℤ) (txs : List Tx) :
    Option TrailingRow :=
  match finalState rate txs with
  | (b, some p) =>
    if 0 < b then
      if 0 < daysBetween p today then
        some { date := today, days := daysBetween p today,
               interest := calculateInterest b p today rate,
               balance := b + calculateInterest b p today rate }
      else none
    else none
  | (_, none) => none

/-- Embedding of the trailing current-interest line of generateCSV
(app.js): appended whenever the final balance is positive and a previous
date exists, with no check on the day count. -/
def csvTrailingRow (rate : ℚ) (today : ℤ) (txs : List Tx) :
    Option TrailingRow :=
  match finalState rate txs with
  | (b, some p) =>
    if 0 < b then
      some { date := today, days := daysBetween p today,
             interest := calculateInterest b p today rate,
             balance := b + calculateInterest b p today rate }
    else none
  | (_, none) => none

lemma foldl_stepBalance_snd (rate : ℚ) :
    ∀ (txs : List Tx) (s : ℚ × Option ℤ), txs ≠ [] →
      (txs.foldl (stepBalance rate) s).2 = (txs.getLast?).map Tx.date := by
  intro txs
  induction txs with
  | nil => intro s h; exact absurd rfl h
  | cons t rest ih =>
    intro s _
    rcases rest with _ | ⟨t1, rest2⟩
    · rfl
    · rw [List.foldl_cons, ih (stepBalance rate s t) (by simp),
        List.getLast?_cons_cons]

lemma finalState_snd (rate : ℚ) (txs : List Tx) :
    (finalState rate txs).2 = (txs.getLast?).map Tx.date := by
  rcases hr : txs with _ | ⟨t, rest⟩
  · rfl
  · exact foldl_stepBalance_snd rate (t :: rest) (0, none) (by simp)

/-- Counterexample to claim C3 as stated: on a ledger holding one loan
dated today, the final balance is positive but zero days have elapsed,
and the tabular export still appends a trailing current-interest row,
because generateCSV lacks the day-count guard of the table. -/
theorem csvTrailingRow_counterexample :
    csvTrailingRow (825 / 10000) 0
        [{ id := 1, date := 0, type := TxType.loanOut, amount := 1000,
           notes := "" }]
      = some { date := 0, days := 0, interest := 0, balance := 1000 }
    ∧ daysBetween 0 0 = 0
    ∧ currentInterestRow (825 / 10000) 0
        [{ id := 1, date := 0, type := TxType.loanOut, amount := 1000,
           notes := "" }]
      = none :=
  ⟨by with_unfolding_all rfl, by with_unfolding_all decide,
    by with_unfolding_all rfl⟩

/-- Claim C3 (amended): the previous date tracked by the loop is the
last transaction's date; the table appends its synthetic trailing row
exactly when the final balance is positive, a transaction exists and the
day count to today is positive, while the tabular export appends its
trailing line already whenever the final balance is positive and a
transaction exists, even for a zero day count; when appended, the row's
interest follows the accrual formula and is folded into the reported
final balance. -/
theorem trailingRow_spec (rate : ℚ) (today : ℤ) (txs : List Tx) :
    (finalState rate txs).2 = (txs.getLast?).map Tx.date
    ∧ (currentInterestRow rate today txs ≠ none ↔
        0 < (finalState rate txs).1
          ∧ ∃ p, (finalState rate txs).2 = some p ∧ 0 < daysBetween p today)
    ∧ (csvTrailingRow rate today txs ≠ none ↔
        0 < (finalState rate txs).1 ∧ (finalState rate txs).2 ≠ none)
    ∧ (∀ row p, (finalState rate txs).2 = some p →
        currentInterestRow rate today txs = some row →
        row.interest = (finalState rate txs).1 * (rate / 365)
            * ((daysBetween p today : ℤ) : ℚ)
          ∧ row.balance = (finalState rate txs).1 + row.interest
          ∧ row.days = daysBetween p today)
    ∧ (∀ row p, (finalState rate txs).2 = some p →
        csvTrailingRow rate today txs = some row →
        row.interest = (finalState rate txs).1 * (rate / 365)
            * ((daysBetween p today : ℤ) : ℚ)
          ∧ row.balance = (finalState rate txs).1 + row.interest
          ∧ row.days = daysBetween p today) := by
  refine ⟨finalState_snd rate txs, ?_, ?_, ?_, ?_⟩
  · rcases hfs : finalState rate txs with ⟨b, _ | p⟩
    · simp [currentInterestRow, hfs]
    · by_cases hb : 0 < b
      · by_cases hd : 0 < daysBetween p today
        · simp [currentInterestRow, hfs, hb, hd]
        · simp [currentInterestRow, hfs, hb, hd]
      · simp [currentInterestRow, hfs, hb]
  · rcases hfs : finalState rate txs with ⟨b, _ | p⟩
    · simp [csvTrailingRow, hfs]
    · by_cases hb : 0 < b
      · simp [csvTrailingRow, hfs, hb]
      · simp [csvTrailingRow, hfs, hb]
  · intro row p hp hrow
    rcases hfs : finalState rate txs with ⟨b, po⟩
    rw [hfs] at hp
    simp only at hp
    subst hp
    by_cases hb : 0 < b
    · by_cases hd : 0 < daysBetween p today
      · have hred : currentInterestRow rate today txs
            = some { date := today, days := daysBetween p today,
                     interest := calculateInterest b p today rate,
                     balance := b + calculateInterest b p today rate } := by
          rw [currentInterestRow, hfs]
          simp [hb, hd]
        rw [hred] at hrow
        have hrw := (Option.some.inj hrow).symm
        subst hrw
        refine ⟨?_, rfl, rfl⟩
        exact calculateInterest_of_pos b p today rate hb
      · have hred : currentInterestRow rate today txs = none := by
          rw [currentInterestRow, hfs]
          simp [hb, hd]
        rw [hred] at hrow
        exact absurd hrow (by simp)
    · have hred : currentInterestRow rate today txs = none := by
        rw [currentInterestRow, hfs]
        simp [hb]
      rw [hred] at hrow
      exact absurd hrow (by simp)
  · intro row p hp hrow
    rcases hfs : finalState rate txs with ⟨b, po⟩
    rw [hfs] at hp
    simp only at hp
    subst hp
    by_cases hb : 0 < b
    · have hred : csvTrailingRow rate today txs
          = some { date := today, days := daysBetween p today,
                   interest := calculateInterest b p today rate,
                   balance := b + calculateInterest b p today rate } := by
        rw [csvTrailingRow, hfs]
        simp [hb]
      rw [hred] at hrow
      have hrw := (Option.some.inj hrow).symm
      subst hrw
      refine ⟨?_, rfl, rfl⟩
      exact calculateInterest_of_pos b p today rate hb
    · have hred : csvTrailingRow rate today txs = none := by
        rw [csvTrailingRow, hfs]
        simp [hb]
      rw [hred] at hrow
      exact absurd hrow (by simp)

/-- Instantiation of trailingRow_spec: a single 1000 loan made 31 days
before today leaves a positive balance, so the table appends a trailing
row accruing 31 days of interest on it. -/
theorem trailingRow_spec_witness :
    ((finalState (825 / 10000)
        [{ id := 3, date := 0, type := TxType.loanOut, amount := 1000,
           notes := "x" }]).2 = some 0
      ∧ currentInterestRow (825 / 10000) 2678400000
          [{ id := 3, date := 0, type := TxType.loanOut, amount := 1000,
             notes := "x" }]
        = some { date := 2678400000, days := 31, interest := 1023 / 146,
                 balance := 1000 + 1023 / 146 })
    ∧ ((1023 : ℚ) / 146
        = (finalState (825 / 10000)
            [{ id := 3, date := 0, type := TxType.loanOut, amount := 1000,
               notes := "x" }]).1 * ((825 / 10000) / 365)
            * ((daysBetween 0 2678400000 : ℤ) : ℚ)
      ∧ (1000 : ℚ) + 1023 / 146
        = (finalState (825 / 10000)
            [{ id := 3, date := 0, type := TxType.loanOut, amount := 1000,
               notes := "x" }]).1 + 1023 / 146
      ∧ (31 : ℤ) = daysBetween 0 2678400000) :=
  ⟨⟨by with_unfolding_all rfl, by with_unfolding_all rfl⟩,
    (trailingRow_spec (825 / 10000) 2678400000
        [{ id := 3, date := 0, type := TxType.loanOut, amount := 1000,
           notes := "x" }]).2.2.2.1
      { date := 2678400000, days := 31, interest := 1023 / 146,
        balance := 1000 + 1023 / 146 } 0
      (by with_unfolding_all rfl) (by with_unfolding_all rfl)⟩

/-- User-visible notifications emitted by deleteTransaction (app.js):
a success toast after deletion, an error toast from the catch block, or
nothing at all. -/
inductive Notice
  | successNote
  | errorNote
  | noNote
deriving DecidableEq

/-- Embedding of LoanTrackerWidget.deleteTransaction (app.js): the entry
is looked up by id; when absent the method returns silently, otherwise
after confirmation the ledger is filtered and a success notice shown. -/
def deleteTransaction (txs : List Tx) (tid : ℕ) (confirmed : Bool) :
    List Tx × Notice :=
  match txs.find? (fun t => t.id == tid) with
  | none => (txs, Notice.noNote)
  | some _ =>
    if confirmed then (txs.filter (fun t => t.id != tid), Notice.successNote)
    else (txs, Notice.noNote)

/-- Counterexample to claim C4 as stated: removing an absent id from the
empty ledger leaves the ledger unchanged but completes silently, with
neither the error channel nor any failure signalled, so the operation
does not fail with NotFound. -/
theorem deleteTransaction_counterexample :
    deleteTransaction [] 0 true = ([], Notice.noNote)
    ∧ Notice.noNote ≠ Notice.errorNote
    ∧ Notice.noNote ≠ Notice.successNote := by
  refine ⟨rfl, by decide, by decide⟩

lemma deleteTransaction_fst (txs : List Tx) (tid : ℕ) :
    (deleteTransaction txs tid true).1 = txs.filter (fun t => t.id != tid) := by
  unfold deleteTransaction
  cases hf : txs.find? (fun t => t.id == tid) with
  | none =>
    rw [List.find?_eq_none] at hf
    have hself : txs.filter (fun t => t.id != tid) = txs := by
      apply List.filter_eq_self.mpr
      intro a ha
      simpa using hf a ha
    simp [hself]
  | some u => rfl

/-- Claim C4 (amended): when an entry with the given id exists, the
confirmed removal deletes exactly the matching entries, keeping every
other entry in order with a success notice; when no entry has that id,
the ledger is returned unchanged, but silently, without any NotFound
failure being signalled. -/
theorem deleteTransaction_spec (txs : List Tx) (tid : ℕ) :
    ((∀ t ∈ txs, t.id ≠ tid) →
        deleteTransaction txs tid true = (txs, Notice.noNote))
    ∧ ((∃ t ∈ txs, t.id = tid) →
        deleteTransaction txs tid true
          = (txs.filter (fun t => t.id != tid), Notice.successNote))
    ∧ (deleteTransaction txs tid true).1.Sublist txs
    ∧ (∀ t ∈ txs, t.id ≠ tid → t ∈ (deleteTransaction txs tid true).1) := by
  refine ⟨?_, ?_, ?_, ?_⟩
  · intro h
    unfold deleteTransaction
    have hf : txs.find? (fun t => t.id == tid) = none := by
      rw [List.find?_eq_none]
      intro x hx
      simpa using h x hx
    rw [hf]
  · rintro ⟨t, ht, hid⟩
    unfold deleteTransaction
    have hsome : (txs.find? (fun t => t.id == tid)).isSome := by
      rw [List.find?_isSome]
      exact ⟨t, ht, by simpa using hid⟩
    rcases Option.isSome_iff_exists.mp hsome with ⟨u, hu⟩
    rw [hu]
    simp
  · rw [deleteTransaction_fst]
    exact List.filter_sublist txs
  · intro t ht hne
    rw [deleteTransaction_fst]
    rw [List.mem_filter]
    exact ⟨ht, by simpa using hne⟩

/-- Instantiation of deleteTransaction_spec: deleting the present id 5
removes exactly that entry with a success notice, and deleting the
absent id 9 silently leaves the ledger unchanged. -/
theorem deleteTransaction_spec_witness :
    ((∃ t ∈ [({ id := 5, date := 0, type := TxType.loanOut, amount := 7,
                notes := "" } : Tx)], t.id = 5)
      ∧ deleteTransaction
          [({ id := 5, date := 0, type := TxType.loanOut, amount := 7,
              notes := "" } : Tx)] 5 true
        = ([], Notice.successNote))
    ∧ ((∀ t ∈ [({ id := 5, date := 0, type := TxType.loanOut, amount := 7,
                  notes := "" } : Tx)], t.id ≠ 9)
      ∧ deleteTransaction
          [({ id := 5, date := 0, type := TxType.loanOut, amount := 7,
              notes := "" } : Tx)] 9 true
        = ([({ id := 5, date := 0, type := TxType.loanOut, amount := 7,
               notes := "" } : Tx)], Notice.noNote)) :=
  ⟨⟨by decide,
      by
        have h := (deleteTransaction_spec
          [({ id := 5, date := 0, type := TxType.loanOut, amount := 7,
              notes := "" } : Tx)] 5).2.1 (by decide)
        rw [h]
        decide⟩,
    ⟨by decide,
      (deleteTransaction_spec
        [({ id := 5, date := 0, type := TxType.loanOut, amount := 7,
            notes := "" } : Tx)] 9).1 (by decide)⟩⟩

/-- Ordered insertion of a transaction before the first later-or-equal
date. Together with sortByDate this models the ES2019 stable
Array.prototype.sort with the comparator of sortTransactions (app.js),
which subtracts the parsed dates: a stable sort by date is the unique
date-sorted reordering preserving the relative order of equal dates,
and insertion sort with this comparison realises it. -/
def insertSorted (t : Tx) : List Tx → List Tx
  | [] => [t]
  | b :: l => if t.date ≤ b.date then t :: b :: l else b :: insertSorted t l

/-- Embedding of LoanTrackerWidget.sortTransactions (app.js): the stable
sort of the ledger by ascending date. -/
def sortTransactions : List Tx → List Tx
  | [] => []
  | t :: l => insertSorted t (sortTransactions l)

/-- Embedding of LoanTrackerWidget.addTransaction (app.js): push the new
transaction at the end, then re-sort. -/
def addTransaction (txs : List Tx) (t : Tx) : List Tx :=
  sortTransactions (txs ++ [t])

/-- One ledger mutation: an insertion (addTransaction) or a confirmed
removal by id (deleteTransaction). -/
inductive LedgerOp
  | insert (t : Tx)
  | removeById (tid : ℕ)

/-- Effect of one mutation on the ledger (app.js). -/
def applyLedgerOp (txs : List Tx) : LedgerOp → List Tx
  | .insert t => addTransaction txs t
  | .removeById tid => (deleteTransaction txs tid true).1

/-- Effect of a sequence of mutations on the ledger. -/
def applyLedgerOps (txs : List Tx) (ops : List LedgerOp) : List Tx :=
  ops.foldl applyLedgerOp txs

/-- Projection of one mutation onto the subsequence of transactions
dated d: an insertion of a d-dated transaction appends it at the end,
any other insertion leaves the subsequence unchanged, and a removal
filters it. Appending and filtering never swap surviving entries. -/
def sameDateOpStep (d : ℤ) (s : List Tx) : LedgerOp → List Tx
  | .insert t => if t.date = d then s ++ [t] else s
  | .removeById tid => s.filter (fun t => t.id != tid)

lemma filter_insertSorted (P : Tx → Bool) (t : Tx)
    (h : ∀ b, P t = true → P b = true → t.date ≤ b.date) :
    ∀ l, (insertSorted t l).filter P =
      if P t then t :: l.filter P else l.filter P := by
  intro l
  induction l with
  | nil =>
    cases hPt : P t <;> simp [insertSorted, List.filter, hPt]
  | cons b l ih =>
    unfold insertSorted
    by_cases hd : t.date ≤ b.date
    · rw [if_pos hd]
      cases hPt : P t <;> cases hPb : P b <;>
        simp [List.filter_cons, hPt, hPb]
    · rw [if_neg hd]
      cases hPt : P t with
      | false =>
        cases hPb : P b <;>
          simp [List.filter_cons, hPt, hPb, ih]
      | true =>
        have hPb : P b = false := by
          cases hPb : P b with
          | false => rfl
          | true => exact absurd (h b hPt hPb) hd
        simp [List.filter_cons, hPb, ih, hPt]

lemma filter_sortTransactions (d : ℤ) (l : List Tx) :
    (sortTransactions l).filter (fun t => t.date == d)
      = l.filter (fun t => t.date == d) := by
  induction l with
  | nil => rfl
  | cons t l ih =>
    have hcond : ∀ b : Tx, (t.date == d) = true → (b.date == d) = true →
        t.date ≤ b.date := by
      intro b h1 h2
      rw [beq_iff_eq] at h1 h2
      rw [h1, h2]
    unfold sortTransactions
    rw [filter_insertSorted (fun u => u.date == d) t hcond (sortTransactions l),
      ih, List.filter_cons]

lemma filter_addTransaction (d : ℤ) (l : List Tx) (t : Tx) :
    (addTransaction l t).filter (fun u => u.date == d)
      = l.filter (fun u => u.date == d) ++ (if t.date = d then [t] else []) := by
  unfold addTransaction
  rw [filter_sortTransactions, List.filter_append]
  congr 1
  by_cases h : t.date = d
  · simp [List.filter, beq_iff_eq, h]
  · have hb : (t.date == d) = false := by simp [h]
    simp [List.filter, hb, h]

/-- Claim C9: the sort is stable on equal dates and the ledger never
reorders same-date transactions: sorting leaves every same-date
subsequence unchanged, and across any sequence of insertions and
removals the subsequence of transactions dated d evolves only by
end-appends of newly inserted d-dated transactions and by filtering of
removals, operations that preserve the relative order of all surviving
entries. -/
theorem sameDate_order_preserved (txs : List Tx) (ops : List LedgerOp) (d : ℤ) :
    ((sortTransactions txs).filter (fun t => t.date == d)
        = txs.filter (fun t => t.date == d))
    ∧ ((applyLedgerOps txs ops).filter (fun t => t.date == d)
        = ops.foldl (sameDateOpStep d) (txs.filter (fun t => t.date == d))) := by
  refine ⟨filter_sortTransactions d txs, ?_⟩
  induction ops generalizing txs with
  | nil => rfl
  | cons op rest ih =>
    have hstep : (applyLedgerOp txs op).filter (fun t => t.date == d)
        = sameDateOpStep d (txs.filter (fun t => t.date == d)) op := by
      cases op with
      | insert t =>
        show (addTransaction txs t).filter (fun u => u.date == d)
            = (if t.date = d then txs.filter (fun u => u.date == d) ++ [t]
               else txs.filter (fun u => u.date == d))
        rw [filter_addTransaction]
        by_cases h : t.date = d <;> simp [h]
      | removeById tid =>
        show ((deleteTransaction txs tid true).1).filter (fun u => u.date == d)
            = (txs.filter (fun u => u.date == d)).filter (fun u => u.id != tid)
        rw [deleteTransaction_fst, List.filter_filter, List.filter_filter]
        congr 1
        funext u
        rw [Bool.and_comm]
    calc (applyLedgerOps txs (op :: rest)).filter (fun t => t.date == d)
        = (applyLedgerOps (applyLedgerOp txs op) rest).filter
            (fun t => t.date == d) := rfl
      _ = rest.foldl (sameDateOpStep d)
            ((applyLedgerOp txs op).filter (fun t => t.date == d)) :=
          ih (applyLedgerOp txs op)
      _ = rest.foldl (sameDateOpStep d)
            (sameDateOpStep d (txs.filter (fun t => t.date == d)) op) := by
          rw [hstep]
      _ = (op :: rest).foldl (sameDateOpStep d)
            (txs.filter (fun t => t.date == d)) := rfl
